import Mathlib

/-!
Verification of the authentication/session-lifecycle engine of
`src/auth/auth_manager.py` (NeMo_Server).

Shallow embedding conventions:
* Python byte strings are `List Nat` with every element `< 256`
  (predicate `isBytes`); tokens (Python `str`) are `List Char`.
* Timestamps (`time.time()` floats) are modelled as `Int`; each operation
  receives its `now` explicitly.
* The AES-256 block transformation of the `cryptography` library is an
  external collaborator: it is abstracted as a pair of functions
  `E D : List Nat → List Nat` that are mutually inverse, length-preserving
  and byte-valued on 16-byte blocks (AES with a fixed key is exactly such a
  permutation).  CBC chaining, IV handling, PKCS7 padding and urlsafe
  base64 are modelled concretely, following the library behaviour the code
  relies on.
* `json.dumps`/`json.loads` of the session dict are abstracted as a
  serializer pair `ser`/`deser` with the library round-trip property.
* The in-memory dict `self.sessions` is an association list with python
  dict assignment/deletion/lookup semantics; the SQLite user table is a
  `List User` looked up by username or user_id (the columns are UNIQUE).
* Python `try/except`-driven failure (decrypt) is an `Option` result.
-/

def isBytes (bs : List Nat) : Prop := ∀ b ∈ bs, b < 256

/-- The urlsafe base64 alphabet used by `base64.urlsafe_b64encode`. -/
def b64Alphabet : List Char :=
  ['A','B','C','D','E','F','G','H','I','J','K','L','M','N','O','P','Q','R',
   'S','T','U','V','W','X','Y','Z','a','b','c','d','e','f','g','h','i','j',
   'k','l','m','n','o','p','q','r','s','t','u','v','w','x','y','z','0','1',
   '2','3','4','5','6','7','8','9','-','_']

def sextetChar (n : Nat) : Char := b64Alphabet.getD n 'A'

def charSextet (c : Char) : Option Nat :=
  let i := b64Alphabet.indexOf c
  if i < 64 then some i else none

/-- Pack bytes into base64 sextets, three bytes at a time
(`binascii.b2a_base64` bit layout). -/
def b64encodeSextets : List Nat → List Nat
  | [] => []
  | [a] => [a / 4, a % 4 * 16]
  | [a, b] => [a / 4, a % 4 * 16 + b / 16, b % 16 * 4]
  | a :: b :: c :: rest =>
    a / 4 :: (a % 4 * 16 + b / 16) :: (b % 16 * 4 + c / 64) :: c % 64 ::
      b64encodeSextets rest

def b64padLen (n : Nat) : Nat :=
  if n % 3 = 1 then 2 else if n % 3 = 2 then 1 else 0

/-- Model of `base64.urlsafe_b64encode` on a byte string. -/
def b64encode (bs : List Nat) : List Char :=
  (b64encodeSextets bs).map sextetChar ++ List.replicate (b64padLen bs.length) '='

def charsToSextets : List Char → Option (List Nat)
  | [] => some []
  | c :: rest =>
    match charSextet c, charsToSextets rest with
    | some s, some t => some (s :: t)
    | _, _ => none

/-- Unpack base64 sextets back into bytes, four sextets at a time; a
leftover group of one sextet is invalid data. -/
def b64decodeQuads : List Nat → Option (List Nat)
  | [] => some []
  | [_] => none
  | [a, b] => some [a * 4 + b / 16]
  | [a, b, c] => some [a * 4 + b / 16, b % 16 * 16 + c / 4]
  | a :: b :: c :: d :: rest =>
    (b64decodeQuads rest).map
      (fun t => (a * 4 + b / 16) :: (b % 16 * 16 + c / 4) :: (c % 4 * 64 + d) :: t)

/-- Model of `base64.urlsafe_b64decode`: non-alphabet characters are discarded,
padding must close the final quantum, failures are an error (here `none`). -/
def b64decode (cs : List Char) : Option (List Nat) :=
  let ds := cs.filter (fun c => b64Alphabet.contains c || c == '=')
  let data := ds.takeWhile (fun c => c != '=')
  let padPart := ds.drop data.length
  if ¬ padPart.all (fun c => c == '=') then none
  else if 2 < padPart.length then none
  else if (data.length + padPart.length) % 4 ≠ 0 then none
  else
    match charsToSextets data with
    | none => none
    | some sx => b64decodeQuads sx

/-- PKCS7 padding to the 128-bit block size
(`sym_padding.PKCS7(128).padder()`). -/
def pad16 (bs : List Nat) : List Nat :=
  bs ++ List.replicate (16 - bs.length % 16) (16 - bs.length % 16)

/-- PKCS7 unpadding (`sym_padding.PKCS7(128).unpadder()`): the input must
be a non-empty multiple of the block size whose last byte `k` lies in
`[1,16]` and whose last `k` bytes all equal `k`; any violation raises,
i.e. yields `none`. -/
def unpad16 (bs : List Nat) : Option (List Nat) :=
  match bs.reverse with
  | [] => none
  | k :: rest =>
    if bs.length % 16 = 0 ∧ 1 ≤ k ∧ k ≤ 16 ∧ k - 1 ≤ rest.length ∧
        (rest.take (k - 1)).all (fun x => x == k)
    then some ((rest.drop (k - 1)).reverse)
    else none

def xorBytes (a b : List Nat) : List Nat := List.zipWith (fun x y => x ^^^ y) a b

/-- CBC-mode encryption over an abstract one-block cipher `E`
(`modes.CBC`): each plaintext block is xored with the previous ciphertext
block (initially the IV) before being put through `E`. -/
def cbcEncBlocks (E : List Nat → List Nat) (iv : List Nat) :
    List (List Nat) → List (List Nat)
  | [] => []
  | b :: rest =>
    let c := E (xorBytes iv b)
    c :: cbcEncBlocks E c rest

/-- CBC-mode decryption over the abstract one-block inverse cipher `D`. -/
def cbcDecBlocks (D : List Nat → List Nat) (iv : List Nat) :
    List (List Nat) → List (List Nat)
  | [] => []
  | c :: rest => xorBytes iv (D c) :: cbcDecBlocks D c rest

/-- Split a byte string into 16-byte blocks (the cipher update loop). -/
def chunks16 (l : List Nat) : List (List Nat) :=
  if h : l = [] then []
  else l.take 16 :: chunks16 (l.drop 16)
termination_by l.length
decreasing_by
  simp only [List.length_drop]
  have : 0 < l.length := List.length_pos.mpr h
  omega

namespace SessionEncryption

/-- Model of `SessionEncryption.__init__`: raises `ValueError` unless the key is
exactly 32 bytes, and stores the key unchanged. -/
def init (secret_key : List Nat) : Except String (List Nat) :=
  if secret_key.length ≠ 32 then Except.error "Secret key must be exactly 32 bytes"
  else Except.ok secret_key

/-- Model of `SessionEncryption.encrypt`: serialize, PKCS7-pad, CBC-encrypt under a
fresh 16-byte IV `iv`, prepend the IV and base64url-encode.  `E` is the
abstract AES-256 block transformation under the configured key and `ser`
the abstract `json.dumps`-to-bytes serializer. -/
def encrypt {α : Type} (E : List Nat → List Nat) (ser : α → List Nat)
    (iv : List Nat) (data : α) : List Char :=
  b64encode (iv ++ (cbcEncBlocks E iv (chunks16 (pad16 (ser data)))).flatten)

/-- Model of `SessionEncryption.decrypt`: base64url-decode, split off the 16-byte
IV, CBC-decrypt, unpad and deserialize; any stage failure (caught by the
blanket `except`) yields `none`.  A combined string shorter than 16 bytes
leaves an invalid IV for `modes.CBC` and a ciphertext that is not a
multiple of the block size makes the decryptor raise; both are modelled by
the explicit length guards. -/
def decrypt {α : Type} (D : List Nat → List Nat) (deser : List Nat → Option α)
    (token : List Char) : Option α :=
  match b64decode token with
  | none => none
  | some combined =>
    if combined.length < 16 then none
    else
      let iv := combined.take 16
      let ct := combined.drop 16
      if ct.length % 16 ≠ 0 then none
      else
        match unpad16 ((cbcDecBlocks D iv (chunks16 ct)).flatten) with
        | none => none
        | some plain => deser plain

end SessionEncryption

/-- Enum `UserRole`: closed two-member enum. -/
inductive UserRole : Type
  | ADMIN
  | USER
deriving DecidableEq, Repr

/-- Dataclass `User` (the row shape of the SQLite `users` table). -/
structure User : Type where
  user_id : String
  username : String
  password_hash : String
  role : UserRole
  speaker_id : Option String := none
  email : Option String := none
  created_at : Option Int := none
  modified_at : Option Int := none
deriving DecidableEq, Repr

/-- The `session_data` dict that `authenticate` builds and `encrypt`
serializes.  `last_refresh` is optional because `validate_session` reads
it with `.get("last_refresh", created_at)`. -/
structure SessionPayload : Type where
  user_id : String
  role : UserRole
  speaker_id : Option String
  created_at : Int
  expires_at : Int
  ip : Option String
  last_refresh : Option Int
deriving DecidableEq, Repr

/-- Dataclass `Session` (the cache entry). -/
structure Session (Token : Type) : Type where
  session_token : Token
  user_id : String
  role : UserRole
  speaker_id : Option String
  created_at : Int
  expires_at : Int
  ip_address : Option String := none
  last_refresh : Int
deriving DecidableEq, Repr

/-- State of `AuthManager`: the in-memory `self.sessions` dict, the user
table, and the configured durations (in seconds). -/
structure AuthState (Token : Type) : Type where
  sessions : List (Token × Session Token)
  users : List User
  session_duration : Int
  refresh_interval : Int
deriving DecidableEq, Repr

/-- Python dict lookup `d.get(k)` on an association list. -/
def alookup {κ ν : Type} [DecidableEq κ] : List (κ × ν) → κ → Option ν
  | [], _ => none
  | (k, v) :: rest, key => if k = key then some v else alookup rest key

/-- Python dict deletion `del d[k]`. -/
def aremove {κ ν : Type} [DecidableEq κ] (l : List (κ × ν)) (key : κ) :
    List (κ × ν) :=
  l.filter (fun p => decide (¬ p.1 = key))

/-- Python dict assignment `d[k] = v`. -/
def ainsert {κ ν : Type} [DecidableEq κ] (l : List (κ × ν)) (key : κ) (v : ν) :
    List (κ × ν) :=
  (key, v) :: aremove l key

namespace AuthManager

/-- Model of `AuthManager.get_user`: `SELECT * FROM users WHERE username = ?`
(username is UNIQUE, so the first match is the row). -/
def get_user (users : List User) (username : String) : Option User :=
  users.find? (fun u => u.username == username)

/-- Model of `AuthManager.get_user_by_id`: `SELECT * FROM users WHERE user_id = ?`. -/
def get_user_by_id (users : List User) (user_id : String) : Option User :=
  users.find? (fun u => u.user_id == user_id)

/-- The `session_data` dict built by `authenticate`. -/
def mkPayload (user : User) (ip_address : Option String) (now dur : Int) :
    SessionPayload :=
  { user_id := user.user_id
    role := user.role
    speaker_id := user.speaker_id
    created_at := now
    expires_at := now + dur
    ip := ip_address
    last_refresh := some now }

/-- The `Session` object stored in the cache by `authenticate`. -/
def sessionOfAuth {Token : Type} (token : Token) (user : User)
    (ip_address : Option String) (now dur : Int) : Session Token :=
  { session_token := token
    user_id := user.user_id
    role := user.role
    speaker_id := user.speaker_id
    created_at := now
    expires_at := now + dur
    ip_address := ip_address
    last_refresh := now }

/-- The `Session` object `validate_session` reconstructs from a decrypted
payload (note the `.get` defaults for `speaker_id`, `ip` and
`last_refresh`). -/
def reconstructSession {Token : Type} (token : Token) (d : SessionPayload) :
    Session Token :=
  { session_token := token
    user_id := d.user_id
    role := d.role
    speaker_id := d.speaker_id
    created_at := d.created_at
    expires_at := d.expires_at
    ip_address := d.ip
    last_refresh := d.last_refresh.getD d.created_at }

/-- Model of `AuthManager.authenticate`.  `verify` abstracts
`bcrypt.checkpw`-based `_verify_password`; `enc` abstracts
`self.encryptor.encrypt` with `ivr` standing for the fresh random IV drawn
inside `encrypt`; `now` is `time.time()`.  Unknown users and failed
verification return `None` without touching state (the dummy bcrypt call
only burns time). -/
def authenticate {Token : Type} [DecidableEq Token]
    (enc : SessionPayload → Nat → Token) (verify : String → String → Bool)
    (st : AuthState Token) (username password : String)
    (ip_address : Option String) (now : Int) (ivr : Nat) :
    Option Token × AuthState Token :=
  match get_user st.users username with
  | none => (none, st)
  | some user =>
    if verify password user.password_hash then
      let session_token := enc (mkPayload user ip_address now st.session_duration) ivr
      let session := sessionOfAuth session_token user ip_address now st.session_duration
      (some session_token, { st with sessions := ainsert st.sessions session_token session })
    else (none, st)

/-- Model of `AuthManager.validate_session`.  `dec` abstracts
`self.encryptor.decrypt`, with `none` covering both decryption failure and
a falsy decrypted value. -/
def validate_session {Token : Type} [DecidableEq Token]
    (dec : Token → Option SessionPayload) (st : AuthState Token)
    (session_token : Token) (now : Int) :
    Option (Session Token) × AuthState Token :=
  match alookup st.sessions session_token with
  | some session =>
    if now > session.expires_at then
      (none, { st with sessions := aremove st.sessions session_token })
    else (some session, st)
  | none =>
    match dec session_token with
    | none => (none, st)
    | some session_data =>
      if now > session_data.expires_at then (none, st)
      else
        let session := reconstructSession session_token session_data
        (some session, { st with sessions := ainsert st.sessions session_token session })

/-- Model of `AuthManager.logout`: delete the cache entry if present and report
whether one existed. -/
def logout {Token : Type} [DecidableEq Token] (st : AuthState Token)
    (session_token : Token) : Bool × AuthState Token :=
  match alookup st.sessions session_token with
  | some _ => (true, { st with sessions := aremove st.sessions session_token })
  | none => (false, st)

/-- Model of `AuthManager.refresh_token`: validate; inside the refresh window
return the same token; otherwise look the user up by id, logout the old
token, and call `authenticate` with the *stored password hash* in the
password position. -/
def refresh_token {Token : Type} [DecidableEq Token]
    (enc : SessionPayload → Nat → Token) (dec : Token → Option SessionPayload)
    (verify : String → String → Bool) (st : AuthState Token)
    (session_token : Token) (ip_address : Option String) (now : Int) (ivr : Nat) :
    Option Token × AuthState Token :=
  match validate_session dec st session_token now with
  | (none, st1) => (none, st1)
  | (some session, st1) =>
    if now - session.last_refresh < st1.refresh_interval then (some session_token, st1)
    else
      match get_user_by_id st1.users session.user_id with
      | none => (none, st1)
      | some user =>
        let st2 := (logout st1 session_token).2
        authenticate enc verify st2 user.username user.password_hash
          (match ip_address with
           | some ip => some ip
           | none => session.ip_address)
          now ivr

/-- The `role_levels` dict literal in `check_permission`. -/
def role_levels : UserRole → Nat
  | UserRole.USER => 1
  | UserRole.ADMIN => 2

/-- An argument in a Python `UserRole`-typed position: the type hint is
advisory, so a caller can pass a value outside the enum; `role_levels.get`
then falls back to its default. -/
inductive RoleArg : Type
  | known (r : UserRole)
  | unknown
deriving DecidableEq, Repr

/-- Model of `role_levels.get(x, default)`. -/
def roleLevelGet (x : RoleArg) (default : Nat) : Nat :=
  match x with
  | RoleArg.known r => role_levels r
  | RoleArg.unknown => default

/-- Model of `AuthManager.check_permission`: validate, then compare role ordinals
(`.get(session.role, 0)` against `.get(required_role, 999)`). -/
def check_permission {Token : Type} [DecidableEq Token]
    (dec : Token → Option SessionPayload) (st : AuthState Token)
    (session_token : Token) (required_role : RoleArg) (now : Int) :
    Bool × AuthState Token :=
  match validate_session dec st session_token now with
  | (none, st1) => (false, st1)
  | (some session, st1) =>
    (decide (roleLevelGet (RoleArg.known session.role) 0 ≥ roleLevelGet required_role 999),
     st1)

/-- Model of `AuthManager.cleanup_expired_sessions`: delete every cache entry with
`expires_at < now` and return how many were deleted. -/
def cleanup_expired_sessions {Token : Type} [DecidableEq Token]
    (st : AuthState Token) (now : Int) : Nat × AuthState Token :=
  let expired := (st.sessions.filter (fun p => decide (p.2.expires_at < now))).map
    (fun p => p.1)
  (expired.length,
   { st with sessions := st.sessions.filter (fun p => decide (¬ p.2.expires_at < now)) })

/-- One externally triggerable cache-mutating call, with the
time/randomness it consumes. -/
inductive Op (Token : Type) : Type
  | auth (username password : String) (ip_address : Option String) (now : Int) (ivr : Nat)
  | validate (session_token : Token) (now : Int)
  | refresh (session_token : Token) (ip_address : Option String) (now : Int) (ivr : Nat)
  | logoutOp (session_token : Token)
  | cleanup (now : Int)

/-- Run one operation for its state effect. -/
def runOp {Token : Type} [DecidableEq Token]
    (enc : SessionPayload → Nat → Token) (dec : Token → Option SessionPayload)
    (verify : String → String → Bool) (st : AuthState Token) :
    Op Token → AuthState Token
  | Op.auth username password ip now ivr =>
    (authenticate enc verify st username password ip now ivr).2
  | Op.validate session_token now => (validate_session dec st session_token now).2
  | Op.refresh session_token ip now ivr =>
    (refresh_token enc dec verify st session_token ip now ivr).2
  | Op.logoutOp session_token => (logout st session_token).2
  | Op.cleanup now => (cleanup_expired_sessions st now).2

/-- Run a sequence of operations. -/
def runOps {Token : Type} [DecidableEq Token]
    (enc : SessionPayload → Nat → Token) (dec : Token → Option SessionPayload)
    (verify : String → String → Bool) (st : AuthState Token)
    (ops : List (Op Token)) : AuthState Token :=
  ops.foldl (runOp enc dec verify) st

/-- Cache-key consistency: every entry of `self.sessions` maps a token to
a `Session` whose `session_token` field is that token. -/
def CacheTokenInv {Token : Type} (st : AuthState Token) : Prop :=
  ∀ p ∈ st.sessions, (p : Token × Session Token).2.session_token = p.1

end AuthManager

/-! Concrete instantiations used by the witnesses: a transparent token
codec (a token is just the payload paired with the IV draw), a
one-byte payload serializer, and a password checker that accepts exactly
the string "pw". -/

abbrev WToken : Type := SessionPayload × Nat

def wEnc (p : SessionPayload) (ivr : Nat) : WToken := (p, ivr)

def wDec (t : WToken) : Option SessionPayload := some t.1

def wVerify (password _hash : String) : Bool := password == "pw"

def serByte (a : Fin 256) : List Nat := [a.1]

def deserByte (bs : List Nat) : Option (Fin 256) :=
  match bs with
  | [b] => if h : b < 256 then some ⟨b, h⟩ else none
  | _ => none

def wIV : List Nat := List.replicate 16 0

def wUserAdmin : User :=
  { user_id := "admin-id", username := "admin", password_hash := "hashA"
    role := UserRole.ADMIN, speaker_id := none, email := none
    created_at := some 0, modified_at := some 0 }

def wPayloadA : SessionPayload :=
  { user_id := "admin-id", role := UserRole.ADMIN, speaker_id := none
    created_at := 0, expires_at := 1000, ip := none, last_refresh := some 0 }

def wTok : WToken := (wPayloadA, 7)

def wSess : Session WToken := AuthManager.reconstructSession wTok wPayloadA

def wState : AuthState WToken :=
  { sessions := [(wTok, wSess)], users := [wUserAdmin]
    session_duration := 3600, refresh_interval := 100 }

def wInit : AuthState WToken :=
  { sessions := [], users := [wUserAdmin]
    session_duration := 3600, refresh_interval := 100 }

/-! ### Association-list (python dict) lemmas -/

theorem alookup_ainsert_self {κ ν : Type} [DecidableEq κ]
    (l : List (κ × ν)) (k : κ) (v : ν) : alookup (ainsert l k v) k = some v := by
  simp [ainsert, alookup]

theorem alookup_aremove_self {κ ν : Type} [DecidableEq κ]
    (l : List (κ × ν)) (k : κ) : alookup (aremove l k) k = none := by
  induction l with
  | nil => simp [aremove, alookup]
  | cons p rest ih =>
    obtain ⟨a, b⟩ := p
    by_cases hp : a = k
    · simpa [aremove, List.filter_cons, hp] using ih
    · simpa [aremove, List.filter_cons, hp, alookup] using ih

theorem alookup_aremove_ne {κ ν : Type} [DecidableEq κ]
    (l : List (κ × ν)) (k k' : κ) (h : k' ≠ k) :
    alookup (aremove l k) k' = alookup l k' := by
  induction l with
  | nil => simp [aremove, alookup]
  | cons p rest ih =>
    obtain ⟨a, b⟩ := p
    by_cases hp : a = k
    · have hp' : ¬ k = k' := fun hk => h hk.symm
      simpa [aremove, List.filter_cons, hp, alookup, hp'] using ih
    · by_cases hq : a = k'
      · simp [aremove, List.filter_cons, hp, alookup, hq, h]
      · simpa [aremove, List.filter_cons, hp, alookup, hq] using ih

theorem alookup_ainsert_ne {κ ν : Type} [DecidableEq κ]
    (l : List (κ × ν)) (k k' : κ) (v : ν) (h : k' ≠ k) :
    alookup (ainsert l k v) k' = alookup l k' := by
  have : k ≠ k' := fun hk => h hk.symm
  simp [ainsert, alookup, this, alookup_aremove_ne l k k' h]

theorem mem_aremove {κ ν : Type} [DecidableEq κ]
    {l : List (κ × ν)} {k : κ} {p : κ × ν} (h : p ∈ aremove l k) : p ∈ l :=
  (List.mem_filter.mp h).1

theorem mem_ainsert {κ ν : Type} [DecidableEq κ]
    {l : List (κ × ν)} {k : κ} {v : ν} {p : κ × ν} (h : p ∈ ainsert l k v) :
    p = (k, v) ∨ p ∈ l := by
  rcases List.mem_cons.mp h with h1 | h2
  · exact Or.inl h1
  · exact Or.inr (mem_aremove h2)

/-! ### `validate_session` case analysis -/

/-- C6: `validate_session` returns a live cache entry unchanged, prunes an
expired cache entry, rejects undecryptable or expired tokens, re-inserts a
freshly decrypted valid session into the cache, and always rejects a
session whose `expires_at` is `now - 1`. -/
theorem validate_session_spec {Token : Type} [DecidableEq Token]
    (dec : Token → Option SessionPayload) (st : AuthState Token)
    (token : Token) (now : Int) :
    (∀ s, alookup st.sessions token = some s → ¬ now > s.expires_at →
        AuthManager.validate_session dec st token now = (some s, st))
    ∧ (∀ s, alookup st.sessions token = some s → now > s.expires_at →
        AuthManager.validate_session dec st token now
          = (none, { st with sessions := aremove st.sessions token }))
    ∧ (alookup st.sessions token = none → dec token = none →
        AuthManager.validate_session dec st token now = (none, st))
    ∧ (∀ d, alookup st.sessions token = none → dec token = some d →
        d.expires_at < now →
        AuthManager.validate_session dec st token now = (none, st))
    ∧ (∀ d, alookup st.sessions token = none → dec token = some d →
        ¬ d.expires_at < now →
        AuthManager.validate_session dec st token now
          = (some (AuthManager.reconstructSession token d),
             { st with sessions :=
                ainsert st.sessions token (AuthManager.reconstructSession token d) }))
    ∧ (∀ s, alookup st.sessions token = some s → s.expires_at = now - 1 →
        (AuthManager.validate_session dec st token now).1 = none)
    ∧ (∀ d, alookup st.sessions token = none → dec token = some d →
        d.expires_at = now - 1 →
        (AuthManager.validate_session dec st token now).1 = none) := by
  refine ⟨?_, ?_, ?_, ?_, ?_, ?_, ?_⟩
  · intro s hs hexp
    simp [AuthManager.validate_session, hs, hexp]
  · intro s hs hexp
    simp [AuthManager.validate_session, hs, hexp]
  · intro hs hd
    simp [AuthManager.validate_session, hs, hd]
  · intro d hs hd hexp
    have : now > d.expires_at := hexp
    simp [AuthManager.validate_session, hs, hd, this]
  · intro d hs hd hexp
    have : ¬ now > d.expires_at := hexp
    simp [AuthManager.validate_session, hs, hd, this]
  · intro s hs hexp
    have : now > s.expires_at := by omega
    simp [AuthManager.validate_session, hs, this]
  · intro d hs hd hexp
    have : now > d.expires_at := by omega
    simp [AuthManager.validate_session, hs, hd, this]

/-- C6 witness: concrete instances of the cache-hit case and the
`expires_at = now - 1` rejection. -/
theorem validate_session_spec_witness :
    AuthManager.validate_session wDec wState wTok 500 = (some wSess, wState)
    ∧ (AuthManager.validate_session wDec
        { wState with sessions := [(wTok, { wSess with expires_at := 500 - 1 })] }
        wTok 500).1 = none := by
  constructor
  · exact (validate_session_spec wDec wState wTok 500).1 wSess (by decide) (by decide)
  · exact (validate_session_spec wDec
      { wState with sessions := [(wTok, { wSess with expires_at := 500 - 1 })] }
      wTok 500).2.2.2.2.2.1 { wSess with expires_at := 500 - 1 } (by decide) (by decide)

/-! ### `logout` and session resurrection -/

/-- C2: `logout` returns `true` exactly when a cache entry existed and
removes it; a subsequent `validate_session` on the same unexpired,
decryptable token succeeds anyway, reconstructing the session from the
token and re-inserting it into the cache — logout does not revoke an
unexpired token. -/
theorem logout_does_not_revoke {Token : Type} [DecidableEq Token]
    (dec : Token → Option SessionPayload) (st : AuthState Token)
    (token : Token) (p : SessionPayload) (now : Int)
    (hdec : dec token = some p) (hexp : ¬ now > p.expires_at) :
    (AuthManager.logout st token).1 = (alookup st.sessions token).isSome
    ∧ alookup ((AuthManager.logout st token).2).sessions token = none
    ∧ AuthManager.validate_session dec ((AuthManager.logout st token).2) token now
      = (some (AuthManager.reconstructSession token p),
         { (AuthManager.logout st token).2 with
            sessions := ainsert ((AuthManager.logout st token).2).sessions token
              (AuthManager.reconstructSession token p) }) := by
  have hmain : alookup ((AuthManager.logout st token).2).sessions token = none := by
    cases hl : alookup st.sessions token with
    | none => simp [AuthManager.logout, hl]
    | some s => simp [AuthManager.logout, hl, alookup_aremove_self]
  refine ⟨?_, hmain, ?_⟩
  · cases hl : alookup st.sessions token with
    | none => simp [AuthManager.logout, hl]
    | some s => simp [AuthManager.logout, hl]
  · simp [AuthManager.validate_session, hmain, hdec, hexp]

/-- C2 witness: logging out the cached admin session and re-presenting the
token reinstates it. -/
theorem logout_does_not_revoke_witness :
    (AuthManager.logout wState wTok).1 = true
    ∧ alookup ((AuthManager.logout wState wTok).2).sessions wTok = none
    ∧ AuthManager.validate_session wDec ((AuthManager.logout wState wTok).2) wTok 500
      = (some wSess,
         { (AuthManager.logout wState wTok).2 with
            sessions := ainsert ((AuthManager.logout wState wTok).2).sessions wTok wSess }) := by
  have h := logout_does_not_revoke wDec wState wTok wPayloadA 500 (by decide) (by decide)
  exact ⟨by rw [h.1]; decide, h.2.1, h.2.2⟩

/-! ### `refresh_token` inside the refresh window -/

/-- C7: if the token validates and `now - last_refresh` is within
`refresh_interval`, `refresh_token` returns the input token itself, and a
second call within the window again returns the same token. -/
theorem refresh_token_idempotent_within_window {Token : Type} [DecidableEq Token]
    (enc : SessionPayload → Nat → Token) (dec : Token → Option SessionPayload)
    (verify : String → String → Bool) (st st1 st2 : AuthState Token)
    (token : Token) (s1 s2 : Session Token) (ip1 ip2 : Option String)
    (now1 now2 : Int) (ivr1 ivr2 : Nat)
    (h1 : AuthManager.validate_session dec st token now1 = (some s1, st1))
    (hw1 : now1 - s1.last_refresh < st1.refresh_interval)
    (h2 : AuthManager.validate_session dec st1 token now2 = (some s2, st2))
    (hw2 : now2 - s2.last_refresh < st2.refresh_interval) :
    AuthManager.refresh_token enc dec verify st token ip1 now1 ivr1 = (some token, st1)
    ∧ AuthManager.refresh_token enc dec verify st1 token ip2 now2 ivr2
      = (some token, st2) := by
  constructor
  · simp [AuthManager.refresh_token, h1, hw1]
  · simp [AuthManager.refresh_token, h2, hw2]

/-- C7 witness: two refreshes of the cached admin session at times 10 and
20, both inside the 100-second window, both return the original token. -/
theorem refresh_token_idempotent_within_window_witness :
    AuthManager.refresh_token wEnc wDec wVerify wState wTok none 10 3 = (some wTok, wState)
    ∧ AuthManager.refresh_token wEnc wDec wVerify wState wTok none 20 4
      = (some wTok, wState) :=
  refresh_token_idempotent_within_window wEnc wDec wVerify wState wState wState wTok
    wSess wSess none none 10 20 3 4 (by decide) (by decide) (by decide) (by decide)

/-! ### `check_permission` -/

/-- C8: `check_permission` validates the session and grants exactly when
the ordinal of the session role (`USER` 1, `ADMIN` 2, unknown 0) is at
least the ordinal of the required role (unknown 999); ADMIN satisfies
USER, USER never satisfies ADMIN, an invalid session is always denied, and
an unknown required role is never satisfiable. -/
theorem check_permission_spec {Token : Type} [DecidableEq Token]
    (dec : Token → Option SessionPayload) (st : AuthState Token)
    (token : Token) (req : AuthManager.RoleArg) (now : Int) :
    ((AuthManager.check_permission dec st token req now).1 = true ↔
      (∃ s st1, AuthManager.validate_session dec st token now = (some s, st1) ∧
        AuthManager.roleLevelGet (AuthManager.RoleArg.known s.role) 0 ≥
          AuthManager.roleLevelGet req 999))
    ∧ (AuthManager.role_levels UserRole.USER = 1
        ∧ AuthManager.role_levels UserRole.ADMIN = 2
        ∧ AuthManager.roleLevelGet AuthManager.RoleArg.unknown 0 = 0
        ∧ AuthManager.roleLevelGet AuthManager.RoleArg.unknown 999 = 999)
    ∧ (∀ s st1, AuthManager.validate_session dec st token now = (some s, st1) →
        s.role = UserRole.ADMIN →
        (AuthManager.check_permission dec st token
          (AuthManager.RoleArg.known UserRole.USER) now).1 = true)
    ∧ (∀ s st1, AuthManager.validate_session dec st token now = (some s, st1) →
        s.role = UserRole.USER →
        (AuthManager.check_permission dec st token
          (AuthManager.RoleArg.known UserRole.ADMIN) now).1 = false)
    ∧ ((AuthManager.validate_session dec st token now).1 = none →
        (AuthManager.check_permission dec st token req now).1 = false)
    ∧ ((AuthManager.check_permission dec st token AuthManager.RoleArg.unknown now).1
        = false) := by
  refine ⟨?_, ⟨rfl, rfl, rfl, rfl⟩, ?_, ?_, ?_, ?_⟩
  · rcases hv : AuthManager.validate_session dec st token now with ⟨o, st1⟩
    cases o with
    | none =>
      simp only [AuthManager.check_permission, hv]
      constructor
      · intro h; exact absurd h (by simp)
      · rintro ⟨s, st2, hs, _⟩
        exact absurd hs (by simp)
    | some s =>
      simp only [AuthManager.check_permission, hv, decide_eq_true_eq]
      constructor
      · intro h; exact ⟨s, st1, rfl, h⟩
      · rintro ⟨s', st2, hs, h⟩
        obtain ⟨hs1, _⟩ := Prod.mk.injEq .. ▸ hs
        cases hs
        exact h
  · intro s st1 hv hrole
    simp [AuthManager.check_permission, hv, hrole, AuthManager.roleLevelGet,
      AuthManager.role_levels]
  · intro s st1 hv hrole
    simp [AuthManager.check_permission, hv, hrole, AuthManager.roleLevelGet,
      AuthManager.role_levels]
  · intro hv
    rcases h : AuthManager.validate_session dec st token now with ⟨o, st1⟩
    rw [h] at hv
    simp at hv
    simp [AuthManager.check_permission, h, hv]
  · rcases h : AuthManager.validate_session dec st token now with ⟨o, st1⟩
    cases o with
    | none => simp [AuthManager.check_permission, h]
    | some s =>
      simp [AuthManager.check_permission, h, AuthManager.roleLevelGet]
      cases s.role <;> simp [AuthManager.role_levels]

/-- C8 witness: the cached ADMIN session satisfies a USER requirement. -/
theorem check_permission_spec_witness :
    (AuthManager.check_permission wDec wState wTok
      (AuthManager.RoleArg.known UserRole.USER) 500).1 = true :=
  (check_permission_spec wDec wState wTok
      (AuthManager.RoleArg.known UserRole.USER) 500).2.2.1 wSess wState
    (by decide) (by decide)

/-! ### `refresh_token` rotation path -/

/-- A successful `validate_session` leaves the token's cache entry in
place: the cache-hit branch keeps it, the reconstruct branch inserts it. -/
theorem validate_some_lookup {Token : Type} [DecidableEq Token]
    (dec : Token → Option SessionPayload) (st st1 : AuthState Token)
    (token : Token) (s : Session Token) (now : Int)
    (hval : AuthManager.validate_session dec st token now = (some s, st1)) :
    alookup st1.sessions token = some s := by
  rcases hl : alookup st.sessions token with _ | s0
  · rcases hd : dec token with _ | d
    · simp [AuthManager.validate_session, hl, hd] at hval
    · by_cases hexp : now > d.expires_at
      · simp [AuthManager.validate_session, hl, hd, hexp] at hval
      · simp only [AuthManager.validate_session, hl, hd, if_neg hexp] at hval
        obtain ⟨hs, hst⟩ := Prod.mk.injEq .. ▸ hval
        cases hs
        rw [← hst]
        exact alookup_ainsert_self ..
  · by_cases hexp : now > s0.expires_at
    · simp [AuthManager.validate_session, hl, hexp] at hval
    · simp only [AuthManager.validate_session, hl, if_neg hexp] at hval
      obtain ⟨hs, hst⟩ := Prod.mk.injEq .. ▸ hval
      cases hs
      rw [← hst]
      exact hl

/-- On the rotation path (validated session, window elapsed, user record
found) `refresh_token` first removes the old token's cache entry via
`logout` and then calls `authenticate` with the stored password hash in
the password position. -/
theorem refresh_rotation_core {Token : Type} [DecidableEq Token]
    (enc : SessionPayload → Nat → Token) (dec : Token → Option SessionPayload)
    (verify : String → String → Bool) (st st1 : AuthState Token)
    (token : Token) (s : Session Token) (u : User) (ip : Option String)
    (now : Int) (ivr : Nat)
    (hval : AuthManager.validate_session dec st token now = (some s, st1))
    (hwin : ¬ now - s.last_refresh < st1.refresh_interval)
    (huid : AuthManager.get_user_by_id st1.users s.user_id = some u) :
    AuthManager.refresh_token enc dec verify st token ip now ivr
      = AuthManager.authenticate enc verify
          { st1 with sessions := aremove st1.sessions token }
          u.username u.password_hash
          (match ip with
           | some i => some i
           | none => s.ip_address) now ivr := by
  have hlk := validate_some_lookup dec st st1 token s now hval
  simp [AuthManager.refresh_token, hval, hwin, huid, AuthManager.logout, hlk]

/-- When every user record that `get_user` can return for `username`
fails password verification, `authenticate` fails without touching
state. -/
theorem authenticate_fails {Token : Type} [DecidableEq Token]
    (enc : SessionPayload → Nat → Token) (verify : String → String → Bool)
    (st : AuthState Token) (username password : String) (ip : Option String)
    (now : Int) (ivr : Nat)
    (hver : ∀ u2, AuthManager.get_user st.users username = some u2 →
      verify password u2.password_hash = false) :
    AuthManager.authenticate enc verify st username password ip now ivr
      = (none, st) := by
  rcases hu : AuthManager.get_user st.users username with _ | u2
  · simp [AuthManager.authenticate, hu]
  · simp [AuthManager.authenticate, hu, hver u2 hu]

/-- C1: on the rotation path `refresh_token` re-authenticates by calling
`authenticate` with the stored bcrypt hash in the *password* position;
since `bcrypt.checkpw(hash, hash)` is false (a bcrypt hash is not its own
preimage), the internal re-authentication fails, so instead of issuing a
new token bound to the same identity, `refresh_token` returns `None` —
after having already removed the old token's cache entry.  The premise
`hbcrypt` records the bcrypt fact for the stored hash. -/
theorem refresh_token_rotation_returns_none {Token : Type} [DecidableEq Token]
    (enc : SessionPayload → Nat → Token) (dec : Token → Option SessionPayload)
    (verify : String → String → Bool) (st st1 : AuthState Token)
    (token : Token) (s : Session Token) (u : User) (ip : Option String)
    (now : Int) (ivr : Nat)
    (hval : AuthManager.validate_session dec st token now = (some s, st1))
    (hwin : ¬ now - s.last_refresh < st1.refresh_interval)
    (huid : AuthManager.get_user_by_id st1.users s.user_id = some u)
    (hbcrypt : ∀ u2, AuthManager.get_user st1.users u.username = some u2 →
      verify u.password_hash u2.password_hash = false) :
    AuthManager.refresh_token enc dec verify st token ip now ivr
      = (none, { st1 with sessions := aremove st1.sessions token }) := by
  rw [refresh_rotation_core enc dec verify st st1 token s u ip now ivr hval hwin huid]
  exact authenticate_fails enc verify _ u.username u.password_hash _ now ivr hbcrypt

/-- C1 witness: the admin session refreshed at time 500 (beyond the
100-second window) yields `none` and an emptied cache, the stored hash
"hashA" failing its own bcrypt check. -/
theorem refresh_token_rotation_returns_none_witness :
    AuthManager.refresh_token wEnc wDec wVerify wState wTok none 500 9
      = (none, { wState with sessions := aremove wState.sessions wTok }) :=
  refresh_token_rotation_returns_none wEnc wDec wVerify wState wState wTok wSess
    wUserAdmin none 500 9 (by decide) (by decide) (by decide)
    (fun u2 h => by
      have hg : AuthManager.get_user wState.users wUserAdmin.username
          = some wUserAdmin := by decide
      rw [hg] at h
      cases h
      decide)

/-- C9: on the rotation path the input token's cache entry (present after
validation) is removed before the replacement token is issued: if the
internal re-authentication fails, `refresh_token` returns `None` with the
entry already gone (the call is not atomic on failure), and if a
replacement token is issued, the old token is absent from the final cache
whenever the new token differs from it. -/
theorem refresh_token_removes_old_entry {Token : Type} [DecidableEq Token]
    (enc : SessionPayload → Nat → Token) (dec : Token → Option SessionPayload)
    (verify : String → String → Bool) (st st1 : AuthState Token)
    (token : Token) (s : Session Token) (u : User) (ip : Option String)
    (now : Int) (ivr : Nat)
    (hval : AuthManager.validate_session dec st token now = (some s, st1))
    (hwin : ¬ now - s.last_refresh < st1.refresh_interval)
    (huid : AuthManager.get_user_by_id st1.users s.user_id = some u) :
    alookup st1.sessions token = some s
    ∧ ((∀ u2, AuthManager.get_user st1.users u.username = some u2 →
          verify u.password_hash u2.password_hash = false) →
        AuthManager.refresh_token enc dec verify st token ip now ivr
          = (none, { st1 with sessions := aremove st1.sessions token }))
    ∧ (∀ newTok stF,
        AuthManager.refresh_token enc dec verify st token ip now ivr
          = (some newTok, stF) →
        ¬ newTok = token → alookup stF.sessions token = none) := by
  have hcore := refresh_rotation_core enc dec verify st st1 token s u ip now ivr
    hval hwin huid
  refine ⟨validate_some_lookup dec st st1 token s now hval, ?_, ?_⟩
  · intro hver
    rw [hcore]
    exact authenticate_fails enc verify _ u.username u.password_hash _ now ivr hver
  · intro newTok stF hEq hne
    rw [hcore] at hEq
    rcases hu : AuthManager.get_user
        ({ st1 with sessions := aremove st1.sessions token } : AuthState Token).users
        u.username with _ | u2
    · simp [AuthManager.authenticate, hu] at hEq
    · by_cases hv : verify u.password_hash u2.password_hash
      · simp only [AuthManager.authenticate, hu, if_pos hv] at hEq
        obtain ⟨htok, hstF⟩ := Prod.mk.injEq .. ▸ hEq
        have htok' := Option.some.inj htok
        subst htok'
        subst hstF
        show alookup (ainsert (aremove st1.sessions token) _ _) token = none
        rw [alookup_ainsert_ne _ _ _ _ (fun hh => hne hh.symm)]
        exact alookup_aremove_self ..
      · simp [AuthManager.authenticate, hu, hv] at hEq

/-- C9 witness: at time 600 the rotation path removes the cached entry and
returns `None` because re-authentication with the stored hash fails. -/
theorem refresh_token_removes_old_entry_witness :
    alookup wState.sessions wTok = some wSess
    ∧ AuthManager.refresh_token wEnc wDec wVerify wState wTok none 600 11
      = (none, { wState with sessions := aremove wState.sessions wTok }) := by
  have h := refresh_token_removes_old_entry wEnc wDec wVerify wState wState wTok wSess
    wUserAdmin none 600 11 (by decide) (by decide) (by decide)
  refine ⟨h.1, h.2.1 ?_⟩
  intro u2 hu
  have hg : AuthManager.get_user wState.users wUserAdmin.username
      = some wUserAdmin := by decide
  rw [hg] at hu
  cases hu
  decide

/-! ### Cache-key consistency invariant -/

theorem inv_authenticate {Token : Type} [DecidableEq Token]
    (enc : SessionPayload → Nat → Token) (verify : String → String → Bool)
    (st : AuthState Token) (username password : String) (ip : Option String)
    (now : Int) (ivr : Nat) (hinv : AuthManager.CacheTokenInv st) :
    AuthManager.CacheTokenInv
      (AuthManager.authenticate enc verify st username password ip now ivr).2 := by
  rcases hu : AuthManager.get_user st.users username with _ | user
  · simpa [AuthManager.authenticate, hu] using hinv
  · by_cases hv : verify password user.password_hash
    · simp only [AuthManager.authenticate, hu, if_pos hv]
      intro p hp
      rcases mem_ainsert hp with h1 | h2
      · rw [h1]; rfl
      · exact hinv p h2
    · simpa [AuthManager.authenticate, hu, hv] using hinv

theorem inv_validate {Token : Type} [DecidableEq Token]
    (dec : Token → Option SessionPayload) (st : AuthState Token)
    (token : Token) (now : Int) (hinv : AuthManager.CacheTokenInv st) :
    AuthManager.CacheTokenInv (AuthManager.validate_session dec st token now).2 := by
  rcases hl : alookup st.sessions token with _ | s0
  · rcases hd : dec token with _ | d
    · simpa [AuthManager.validate_session, hl, hd] using hinv
    · by_cases hexp : now > d.expires_at
      · simpa [AuthManager.validate_session, hl, hd, hexp] using hinv
      · simp only [AuthManager.validate_session, hl, hd, if_neg hexp]
        intro p hp
        rcases mem_ainsert hp with h1 | h2
        · rw [h1]; rfl
        · exact hinv p h2
  · by_cases hexp : now > s0.expires_at
    · simp only [AuthManager.validate_session, hl, if_pos hexp]
      intro p hp
      exact hinv p (mem_aremove hp)
    · simpa [AuthManager.validate_session, hl, hexp] using hinv

theorem inv_logout {Token : Type} [DecidableEq Token]
    (st : AuthState Token) (token : Token) (hinv : AuthManager.CacheTokenInv st) :
    AuthManager.CacheTokenInv (AuthManager.logout st token).2 := by
  rcases hl : alookup st.sessions token with _ | s0
  · simpa [AuthManager.logout, hl] using hinv
  · simp only [AuthManager.logout, hl]
    intro p hp
    exact hinv p (mem_aremove hp)

theorem inv_cleanup {Token : Type} [DecidableEq Token]
    (st : AuthState Token) (now : Int) (hinv : AuthManager.CacheTokenInv st) :
    AuthManager.CacheTokenInv (AuthManager.cleanup_expired_sessions st now).2 := by
  intro p hp
  exact hinv p (List.mem_filter.mp hp).1

theorem inv_refresh {Token : Type} [DecidableEq Token]
    (enc : SessionPayload → Nat → Token) (dec : Token → Option SessionPayload)
    (verify : String → String → Bool) (st : AuthState Token)
    (token : Token) (ip : Option String) (now : Int) (ivr : Nat)
    (hinv : AuthManager.CacheTokenInv st) :
    AuthManager.CacheTokenInv
      (AuthManager.refresh_token enc dec verify st token ip now ivr).2 := by
  have hv1 := inv_validate dec st token now hinv
  rcases hval : AuthManager.validate_session dec st token now with ⟨o, st1⟩
  rw [hval] at hv1
  cases o with
  | none => simpa [AuthManager.refresh_token, hval] using hv1
  | some session =>
    by_cases hwin : now - session.last_refresh < st1.refresh_interval
    · simpa [AuthManager.refresh_token, hval, hwin] using hv1
    · rcases hu : AuthManager.get_user_by_id st1.users session.user_id with _ | user
      · simpa [AuthManager.refresh_token, hval, hwin, hu] using hv1
      · have h2 := inv_logout st1 token hv1
        have h3 := inv_authenticate enc verify (AuthManager.logout st1 token).2
          user.username user.password_hash
          (match ip with
           | some i => some i
           | none => session.ip_address) now ivr h2
        simpa [AuthManager.refresh_token, hval, hwin, hu] using h3

theorem inv_runOp {Token : Type} [DecidableEq Token]
    (enc : SessionPayload → Nat → Token) (dec : Token → Option SessionPayload)
    (verify : String → String → Bool) (st : AuthState Token)
    (op : AuthManager.Op Token) (hinv : AuthManager.CacheTokenInv st) :
    AuthManager.CacheTokenInv (AuthManager.runOp enc dec verify st op) := by
  cases op with
  | auth username password ip now ivr =>
    exact inv_authenticate enc verify st username password ip now ivr hinv
  | validate token now => exact inv_validate dec st token now hinv
  | refresh token ip now ivr => exact inv_refresh enc dec verify st token ip now ivr hinv
  | logoutOp token => exact inv_logout st token hinv
  | cleanup now => exact inv_cleanup st now hinv

/-- C10: starting from any state whose cache entries are keyed by their
own `session_token`, every sequence of authenticate / validate / refresh /
logout / cleanup calls preserves that invariant; moreover `logout` and
`cleanup_expired_sessions` only delete entries (their resulting caches are
sub-multisets of the original). -/
theorem cache_token_inv_preserved {Token : Type} [DecidableEq Token]
    (enc : SessionPayload → Nat → Token) (dec : Token → Option SessionPayload)
    (verify : String → String → Bool) (st : AuthState Token)
    (ops : List (AuthManager.Op Token)) (hinv : AuthManager.CacheTokenInv st) :
    AuthManager.CacheTokenInv (AuthManager.runOps enc dec verify st ops)
    ∧ (∀ token, ∀ p ∈ ((AuthManager.logout st token).2).sessions, p ∈ st.sessions)
    ∧ (∀ now, ∀ p ∈ ((AuthManager.cleanup_expired_sessions st now).2).sessions,
        p ∈ st.sessions) := by
  refine ⟨?_, ?_, ?_⟩
  · induction ops generalizing st with
    | nil => exact hinv
    | cons op rest ih =>
      exact ih (AuthManager.runOp enc dec verify st op)
        (inv_runOp enc dec verify st op hinv)
  · intro token p hp
    rcases hl : alookup st.sessions token with _ | s0
    · rw [AuthManager.logout] at hp
      rw [hl] at hp
      exact hp
    · rw [AuthManager.logout] at hp
      rw [hl] at hp
      exact mem_aremove hp
  · intro now p hp
    exact (List.mem_filter.mp hp).1

/-- C10 witness: a concrete five-operation run from an empty cache keeps
the invariant. -/
theorem cache_token_inv_preserved_witness :
    AuthManager.CacheTokenInv
      (AuthManager.runOps wEnc wDec wVerify wInit
        [AuthManager.Op.auth "admin" "pw" none 0 1,
         AuthManager.Op.validate wTok 5,
         AuthManager.Op.refresh wTok none 600 2,
         AuthManager.Op.logoutOp wTok,
         AuthManager.Op.cleanup 10]) :=
  (cache_token_inv_preserved wEnc wDec wVerify wInit
    [AuthManager.Op.auth "admin" "pw" none 0 1,
     AuthManager.Op.validate wTok 5,
     AuthManager.Op.refresh wTok none 600 2,
     AuthManager.Op.logoutOp wTok,
     AuthManager.Op.cleanup 10]
    (fun p hp => absurd hp (List.not_mem_nil p))).1

/-! ### base64 lemmas -/

theorem charSextet_sextetChar : ∀ n, n < 64 → charSextet (sextetChar n) = some n := by
  decide

theorem sextetChar_contains :
    ∀ n, n < 64 → b64Alphabet.contains (sextetChar n) = true := by
  decide

theorem sextetChar_ne_pad : ∀ n, n < 64 → (sextetChar n != '=') = true := by
  decide

theorem b64encodeSextets_lt : ∀ bs, isBytes bs → ∀ s ∈ b64encodeSextets bs, s < 64
  | [], _, s, hs => absurd hs (by simp [b64encodeSextets])
  | [a], h, s, hs => by
    have ha : a < 256 := h a (by simp)
    simp [b64encodeSextets] at hs
    rcases hs with h1 | h1 <;> omega
  | [a, b], h, s, hs => by
    have ha : a < 256 := h a (by simp)
    have hb : b < 256 := h b (by simp)
    simp [b64encodeSextets] at hs
    rcases hs with h1 | h1 | h1 <;> omega
  | a :: b :: c :: rest, h, s, hs => by
    have ha : a < 256 := h a (by simp)
    have hb : b < 256 := h b (by simp)
    have hc : c < 256 := h c (by simp)
    have hrest : isBytes rest := fun x hx => h x (by simp [hx])
    simp only [b64encodeSextets, List.mem_cons] at hs
    rcases hs with h1 | h1 | h1 | h1 | h1
    · omega
    · omega
    · omega
    · omega
    · exact b64encodeSextets_lt rest hrest s h1

theorem b64encodeSextets_mod4 :
    ∀ bs : List Nat, ((b64encodeSextets bs).length + b64padLen bs.length) % 4 = 0
  | [] => by simp [b64encodeSextets, b64padLen]
  | [a] => by simp [b64encodeSextets, b64padLen]
  | [a, b] => by simp [b64encodeSextets, b64padLen]
  | a :: b :: c :: rest => by
    have ih := b64encodeSextets_mod4 rest
    have hpl : b64padLen (rest.length + 3) = b64padLen rest.length := by
      simp [b64padLen, Nat.add_mod_right]
    have hlen : (a :: b :: c :: rest).length = rest.length + 3 := by
      simp
    rw [hlen, hpl]
    simp only [b64encodeSextets, List.length_cons]
    omega

theorem b64padLen_le : ∀ n, b64padLen n ≤ 2 := by
  intro n
  simp only [b64padLen]
  split <;> try split
  all_goals omega

theorem charsToSextets_map :
    ∀ sx : List Nat, (∀ s ∈ sx, s < 64) → charsToSextets (sx.map sextetChar) = some sx
  | [], _ => rfl
  | s :: rest, h => by
    have hs := charSextet_sextetChar s (h s (by simp))
    have ih := charsToSextets_map rest (fun x hx => h x (by simp [hx]))
    simp [charsToSextets, hs, ih]

theorem b64decodeQuads_encodeSextets :
    ∀ bs, isBytes bs → b64decodeQuads (b64encodeSextets bs) = some bs
  | [], _ => rfl
  | [a], h => by
    have ha : a < 256 := h a (by simp)
    simp only [b64encodeSextets, b64decodeQuads, Option.some.injEq, List.cons.injEq,
      and_true]
    omega
  | [a, b], h => by
    have ha : a < 256 := h a (by simp)
    have hb : b < 256 := h b (by simp)
    simp only [b64encodeSextets, b64decodeQuads, Option.some.injEq, List.cons.injEq,
      and_true]
    constructor <;> omega
  | a :: b :: c :: rest, h => by
    have ha : a < 256 := h a (by simp)
    have hb : b < 256 := h b (by simp)
    have hc : c < 256 := h c (by simp)
    have hrest : isBytes rest := fun x hx => h x (by simp [hx])
    have ih := b64decodeQuads_encodeSextets rest hrest
    simp only [b64encodeSextets, b64decodeQuads, ih, Option.map_some]
    have e1 : a / 4 * 4 + (a % 4 * 16 + b / 16) / 16 = a := by omega
    have e2 : (a % 4 * 16 + b / 16) % 16 * 16 + (b % 16 * 4 + c / 64) / 4 = b := by omega
    have e3 : (b % 16 * 4 + c / 64) % 4 * 64 + c % 64 = c := by omega
    rw [e1, e2, e3]
    rfl

theorem takeWhile_replicate_pad (p : Nat) :
    (List.replicate p '=').takeWhile (fun c => c != '=') = [] := by
  cases p with
  | zero => rfl
  | succ n => simp [List.replicate_succ, List.takeWhile_cons]

theorem all_replicate_pad (p : Nat) :
    (List.replicate p '=').all (fun c => c == '=') = true := by
  simp only [List.all_eq_true]
  intro c hc
  simp [List.eq_of_mem_replicate hc]

/-- Decoding an encoded shape: alphabet characters followed by at most two
padding characters whose total length is a multiple of four decodes back
through the quad decoder. -/
theorem b64decode_encodeShape (sx : List Nat) (p : Nat)
    (hsx : ∀ s ∈ sx, s < 64) (hp : p ≤ 2) (hmod : (sx.length + p) % 4 = 0) :
    b64decode (sx.map sextetChar ++ List.replicate p '=') = b64decodeQuads sx := by
  have hfilter :
      (sx.map sextetChar ++ List.replicate p '=').filter
        (fun c => b64Alphabet.contains c || c == '=')
      = sx.map sextetChar ++ List.replicate p '=' := by
    apply List.filter_eq_self.mpr
    intro c hc
    rcases List.mem_append.mp hc with h1 | h2
    · obtain ⟨s, hs, rfl⟩ := List.mem_map.mp h1
      have h3 := sextetChar_contains s (hsx s hs)
      rw [h3]
      simp
    · simp [List.eq_of_mem_replicate h2]
  have htake :
      (sx.map sextetChar ++ List.replicate p '=').takeWhile (fun c => c != '=')
      = sx.map sextetChar := by
    rw [List.takeWhile_append_of_pos]
    · rw [takeWhile_replicate_pad]
      simp
    · intro a ha
      obtain ⟨s, hs, rfl⟩ := List.mem_map.mp ha
      exact sextetChar_ne_pad s (hsx s hs)
  simp only [b64decode, hfilter, htake]
  rw [List.drop_left]
  rw [if_neg (by simp [all_replicate_pad])]
  rw [if_neg (by
    simp only [List.length_replicate]
    exact Nat.not_lt.mpr hp)]
  rw [if_neg (by
    simp only [List.length_map, List.length_replicate]
    simp [hmod])]
  rw [charsToSextets_map sx hsx]

theorem b64_roundtrip (bs : List Nat) (h : isBytes bs) :
    b64decode (b64encode bs) = some bs := by
  rw [b64encode]
  rw [b64decode_encodeShape (b64encodeSextets bs) (b64padLen bs.length)
    (b64encodeSextets_lt bs h) (b64padLen_le bs.length) (b64encodeSextets_mod4 bs)]
  exact b64decodeQuads_encodeSextets bs h

/-! ### PKCS7 lemmas -/

theorem pad16_length_mod (bs : List Nat) : (pad16 bs).length % 16 = 0 := by
  simp only [pad16, List.length_append, List.length_replicate]
  omega

theorem pad16_bytes (bs : List Nat) (h : isBytes bs) : isBytes (pad16 bs) := by
  intro x hx
  rcases List.mem_append.mp hx with h1 | h2
  · exact h x h1
  · have := List.eq_of_mem_replicate h2
    omega

theorem unpad16_pad16 (bs : List Nat) : unpad16 (pad16 bs) = some bs := by
  obtain ⟨m, hm⟩ : ∃ m, 16 - bs.length % 16 = m + 1 :=
    ⟨16 - bs.length % 16 - 1, by omega⟩
  have hrev : (pad16 bs).reverse
      = (m + 1) :: (List.replicate m (m + 1) ++ bs.reverse) := by
    rw [pad16, hm, List.reverse_append, List.reverse_replicate, List.replicate_succ]
    simp
  have hc1 : (pad16 bs).length % 16 = 0 := pad16_length_mod bs
  have hc4 : m + 1 - 1 ≤ (List.replicate m (m + 1) ++ bs.reverse).length := by
    simp
  have hc5 : ((List.replicate m (m + 1) ++ bs.reverse).take (m + 1 - 1)).all
      (fun x => x == m + 1) = true := by
    simp only [Nat.add_sub_cancel]
    rw [List.take_left' (List.length_replicate ..)]
    apply List.all_eq_true.mpr
    intro x hx
    simp [List.eq_of_mem_replicate hx]
  simp only [unpad16, hrev]
  rw [if_pos ⟨hc1, by omega, by omega, hc4, hc5⟩]
  rw [List.drop_left' (by simp : (List.replicate m (m + 1)).length = m + 1 - 1)]
  simp

/-! ### block-chunking lemmas -/

theorem chunks16_flatten : ∀ l : List Nat, (chunks16 l).flatten = l := by
  intro l
  induction l using chunks16.induct with
  | case1 => simp [chunks16]
  | case2 l hne ih =>
    rw [chunks16, dif_neg hne]
    simp only [List.flatten_cons, ih]
    exact List.take_append_drop 16 l

theorem chunks16_length16 : ∀ l : List Nat, l.length % 16 = 0 →
    ∀ b ∈ chunks16 l, b.length = 16 := by
  intro l
  induction l using chunks16.induct with
  | case1 =>
    intro _ b hb
    simp [chunks16] at hb
  | case2 l hne ih =>
    intro hmod b hb
    rw [chunks16, dif_neg hne] at hb
    have hpos : 0 < l.length := List.length_pos.mpr hne
    rcases List.mem_cons.mp hb with h1 | h2
    · rw [h1, List.length_take]
      omega
    · exact ih (by rw [List.length_drop]; omega) b h2

theorem chunks16_mem_mem : ∀ l : List Nat, ∀ b ∈ chunks16 l, ∀ x ∈ b, x ∈ l := by
  intro l
  induction l using chunks16.induct with
  | case1 =>
    intro b hb
    simp [chunks16] at hb
  | case2 l hne ih =>
    intro b hb x hx
    rw [chunks16, dif_neg hne] at hb
    rcases List.mem_cons.mp hb with h1 | h2
    · exact List.take_subset 16 l (h1 ▸ hx)
    · exact List.drop_subset 16 l (ih b h2 x hx)

theorem chunks16_of_blocks : ∀ blocks : List (List Nat),
    (∀ b ∈ blocks, b.length = 16) → chunks16 blocks.flatten = blocks
  | [], _ => by simp [chunks16]
  | b :: rest, h => by
    have hb : b.length = 16 := h b (by simp)
    have hbne : b ≠ [] := by
      intro he
      rw [he] at hb
      simp at hb
    have hne : b ++ rest.flatten ≠ [] := by
      intro he
      exact hbne (List.append_eq_nil.mp he).1
    rw [List.flatten_cons, chunks16, dif_neg hne]
    rw [List.take_left' hb, List.drop_left' hb]
    rw [chunks16_of_blocks rest (fun x hx => h x (by simp [hx]))]

/-! ### xor and CBC lemmas -/

theorem xorBytes_cancel : ∀ a b : List Nat, a.length = b.length →
    xorBytes a (xorBytes a b) = b
  | [], [], _ => rfl
  | [], _ :: _, h => by simp at h
  | _ :: _, [], h => by simp at h
  | x :: xs, y :: ys, h => by
    simp only [xorBytes, List.zipWith_cons_cons]
    have ih := xorBytes_cancel xs ys (by simpa using h)
    simp only [xorBytes] at ih
    rw [Nat.xor_cancel_left, ih]

theorem xorBytes_length (a b : List Nat) :
    (xorBytes a b).length = min a.length b.length := by
  simp [xorBytes]

theorem xorBytes_bytes : ∀ a b : List Nat, isBytes a → isBytes b →
    isBytes (xorBytes a b)
  | [], _, _, _ => by
    intro x hx
    simp [xorBytes] at hx
  | _ :: _, [], _, _ => by
    intro x hx
    simp [xorBytes] at hx
  | x :: xs, y :: ys, ha, hb => by
    intro z hz
    simp only [xorBytes, List.zipWith_cons_cons, List.mem_cons] at hz
    rcases hz with h1 | h2
    · have h256 : (256 : Nat) = 2 ^ 8 := by norm_num
      rw [h1, h256]
      exact Nat.xor_lt_two_pow (h256 ▸ ha x (by simp)) (h256 ▸ hb y (by simp))
    · exact xorBytes_bytes xs ys (fun u hu => ha u (by simp [hu]))
        (fun u hu => hb u (by simp [hu])) z h2

theorem cbcEncBlocks_spec (E : List Nat → List Nat)
    (hE16 : ∀ x, x.length = 16 → isBytes x → (E x).length = 16)
    (hEb : ∀ x, x.length = 16 → isBytes x → isBytes (E x)) :
    ∀ (blocks : List (List Nat)) (iv : List Nat), iv.length = 16 → isBytes iv →
      (∀ b ∈ blocks, b.length = 16 ∧ isBytes b) →
      ∀ c ∈ cbcEncBlocks E iv blocks, c.length = 16 ∧ isBytes c
  | [], iv, _, _, _ => by
    intro c hc
    simp [cbcEncBlocks] at hc
  | b :: rest, iv, hiv, hivb, hbl => by
    intro c hc
    have hb := hbl b (by simp)
    have hxl : (xorBytes iv b).length = 16 := by
      rw [xorBytes_length, hiv, hb.1]
      simp
    have hxb : isBytes (xorBytes iv b) := xorBytes_bytes iv b hivb hb.2
    have hcl : (E (xorBytes iv b)).length = 16 := hE16 _ hxl hxb
    have hcb : isBytes (E (xorBytes iv b)) := hEb _ hxl hxb
    simp only [cbcEncBlocks, List.mem_cons] at hc
    rcases hc with h1 | h2
    · exact h1 ▸ ⟨hcl, hcb⟩
    · exact cbcEncBlocks_spec E hE16 hEb rest (E (xorBytes iv b)) hcl hcb
        (fun x hx => hbl x (by simp [hx])) c h2

theorem cbcDec_cbcEnc (E D : List Nat → List Nat)
    (hDE : ∀ x, x.length = 16 → isBytes x → D (E x) = x)
    (hE16 : ∀ x, x.length = 16 → isBytes x → (E x).length = 16)
    (hEb : ∀ x, x.length = 16 → isBytes x → isBytes (E x)) :
    ∀ (blocks : List (List Nat)) (iv : List Nat), iv.length = 16 → isBytes iv →
      (∀ b ∈ blocks, b.length = 16 ∧ isBytes b) →
      cbcDecBlocks D iv (cbcEncBlocks E iv blocks) = blocks
  | [], iv, _, _, _ => rfl
  | b :: rest, iv, hiv, hivb, hbl => by
    have hb := hbl b (by simp)
    have hxl : (xorBytes iv b).length = 16 := by
      rw [xorBytes_length, hiv, hb.1]
      simp
    have hxb : isBytes (xorBytes iv b) := xorBytes_bytes iv b hivb hb.2
    have hcl : (E (xorBytes iv b)).length = 16 := hE16 _ hxl hxb
    have hcb : isBytes (E (xorBytes iv b)) := hEb _ hxl hxb
    simp only [cbcEncBlocks, cbcDecBlocks]
    rw [hDE _ hxl hxb]
    rw [xorBytes_cancel iv b (by rw [hiv, hb.1])]
    rw [cbcDec_cbcEnc E D hDE hE16 hEb rest (E (xorBytes iv b)) hcl hcb
      (fun x hx => hbl x (by simp [hx]))]

theorem flatten_len16_mod (blocks : List (List Nat))
    (h : ∀ b ∈ blocks, b.length = 16) : blocks.flatten.length % 16 = 0 := by
  induction blocks with
  | nil => rfl
  | cons b rest ih =>
    rw [List.flatten_cons, List.length_append, h b (by simp)]
    have := ih (fun x hx => h x (by simp [hx]))
    omega

theorem flatten_bytes (blocks : List (List Nat))
    (h : ∀ b ∈ blocks, isBytes b) : isBytes blocks.flatten := by
  intro x hx
  obtain ⟨b, hb, hxb⟩ := List.mem_flatten.mp hx
  exact h b hb x hxb

/-! ### Token codec claims -/

/-- C3: decrypting the token produced by `encrypt` recovers the payload
exactly, for any 16-byte IV, any serializer with the `json` round-trip
property, and any block transformation pair that is AES-like (mutually
inverse, length-preserving and byte-valued on 16-byte byte blocks — which
is what AES-256 under any 32-byte key provides). -/
theorem encrypt_decrypt_roundtrip {α : Type} (E D : List Nat → List Nat)
    (ser : α → List Nat) (deser : List Nat → Option α)
    (hDE : ∀ x, x.length = 16 → isBytes x → D (E x) = x)
    (hE16 : ∀ x, x.length = 16 → isBytes x → (E x).length = 16)
    (hEb : ∀ x, x.length = 16 → isBytes x → isBytes (E x))
    (hsd : ∀ a, deser (ser a) = some a)
    (hserB : ∀ a, isBytes (ser a))
    (iv : List Nat) (hiv : iv.length = 16) (hivb : isBytes iv) (P : α) :
    SessionEncryption.decrypt D deser (SessionEncryption.encrypt E ser iv P)
      = some P := by
  have hpadmod := pad16_length_mod (ser P)
  have hpadB := pad16_bytes (ser P) (hserB P)
  have hbl : ∀ b ∈ chunks16 (pad16 (ser P)), b.length = 16 ∧ isBytes b :=
    fun b hb => ⟨chunks16_length16 (pad16 (ser P)) hpadmod b hb,
      fun x hx => hpadB x (chunks16_mem_mem _ b hb x hx)⟩
  have henc := cbcEncBlocks_spec E hE16 hEb (chunks16 (pad16 (ser P))) iv hiv hivb hbl
  have hctmod : (cbcEncBlocks E iv (chunks16 (pad16 (ser P)))).flatten.length % 16 = 0 :=
    flatten_len16_mod _ (fun c hc => (henc c hc).1)
  have hctB : isBytes (cbcEncBlocks E iv (chunks16 (pad16 (ser P)))).flatten :=
    flatten_bytes _ (fun c hc => (henc c hc).2)
  have hcombB :
      isBytes (iv ++ (cbcEncBlocks E iv (chunks16 (pad16 (ser P)))).flatten) := by
    intro x hx
    rcases List.mem_append.mp hx with h1 | h2
    · exact hivb x h1
    · exact hctB x h2
  have hb64 := b64_roundtrip _ hcombB
  have hlen :
      ¬ (iv ++ (cbcEncBlocks E iv (chunks16 (pad16 (ser P)))).flatten).length < 16 := by
    rw [List.length_append, hiv]
    omega
  simp only [SessionEncryption.encrypt, SessionEncryption.decrypt, hb64]
  rw [if_neg hlen]
  rw [List.take_left' hiv, List.drop_left' hiv]
  rw [if_neg (fun hns => hns hctmod)]
  rw [chunks16_of_blocks _ (fun c hc => (henc c hc).1)]
  rw [cbcDec_cbcEnc E D hDE hE16 hEb _ iv hiv hivb hbl]
  rw [chunks16_flatten]
  rw [unpad16_pad16]
  exact hsd P

/-- C3 witness: the identity block transformation (trivially AES-like on
16-byte blocks), the one-byte serializer and the all-zero IV round-trip
the payload byte 42. -/
theorem encrypt_decrypt_roundtrip_witness :
    SessionEncryption.decrypt (fun x => x) deserByte
      (SessionEncryption.encrypt (fun x => x) serByte wIV (42 : Fin 256))
      = some (42 : Fin 256) :=
  encrypt_decrypt_roundtrip (fun x => x) (fun x => x) serByte deserByte
    (fun _ _ _ => rfl) (fun _ hx _ => hx) (fun _ _ hb => hb)
    (fun a => by simp [serByte, deserByte])
    (fun a x hx => by
      simp only [serByte, List.mem_singleton] at hx
      rw [hx]
      exact a.2)
    wIV (by decide)
    (fun b hb => by
      simp [wIV, List.mem_replicate] at hb
      omega)
    (42 : Fin 256)

/-- C4: `decrypt` is total — for every input it returns either a payload
or the single failure outcome `none` — and every failure cause (base64
rejection, a too-short byte string, a ciphertext that is not a multiple of
the block size, a padding violation, a deserialization failure) collapses
to that same indistinguishable `none`. -/
theorem decrypt_failure_collapse {α : Type} (D : List Nat → List Nat)
    (deser : List Nat → Option α) (token : List Char) :
    (SessionEncryption.decrypt D deser token = none
      ∨ ∃ d, SessionEncryption.decrypt D deser token = some d)
    ∧ (b64decode token = none → SessionEncryption.decrypt D deser token = none)
    ∧ (∀ combined, b64decode token = some combined →
        (combined.length < 16 → SessionEncryption.decrypt D deser token = none)
        ∧ ((combined.drop 16).length % 16 ≠ 0 →
            SessionEncryption.decrypt D deser token = none)
        ∧ (unpad16 ((cbcDecBlocks D (combined.take 16)
              (chunks16 (combined.drop 16))).flatten) = none →
            SessionEncryption.decrypt D deser token = none)
        ∧ (∀ plain,
            unpad16 ((cbcDecBlocks D (combined.take 16)
              (chunks16 (combined.drop 16))).flatten) = some plain →
            deser plain = none →
            SessionEncryption.decrypt D deser token = none)) := by
  refine ⟨?_, ?_, ?_⟩
  · rcases h : SessionEncryption.decrypt D deser token with _ | d
    · exact Or.inl rfl
    · exact Or.inr ⟨d, rfl⟩
  · intro hb
    simp [SessionEncryption.decrypt, hb]
  · intro combined hb
    refine ⟨?_, ?_, ?_, ?_⟩
    · intro hshort
      simp [SessionEncryption.decrypt, hb, hshort]
    · intro hmod
      have hmod' : (combined.length - 16) % 16 ≠ 0 := by simpa using hmod
      by_cases hshort : combined.length < 16
      · simp [SessionEncryption.decrypt, hb, hshort]
      · simp [SessionEncryption.decrypt, hb, hshort, hmod']
    · intro hunpad
      by_cases hshort : combined.length < 16
      · simp [SessionEncryption.decrypt, hb, hshort]
      · by_cases hmod : (combined.drop 16).length % 16 ≠ 0
        · have hmod' : (combined.length - 16) % 16 ≠ 0 := by simpa using hmod
          simp [SessionEncryption.decrypt, hb, hshort, hmod']
        · have hmod' : (combined.length - 16) % 16 = 0 := by simpa using hmod
          simp [SessionEncryption.decrypt, hb, hshort, hmod', hunpad]
    · intro plain hunpad hdeser
      by_cases hshort : combined.length < 16
      · simp [SessionEncryption.decrypt, hb, hshort]
      · by_cases hmod : (combined.drop 16).length % 16 ≠ 0
        · have hmod' : (combined.length - 16) % 16 ≠ 0 := by simpa using hmod
          simp [SessionEncryption.decrypt, hb, hshort, hmod']
        · have hmod' : (combined.length - 16) % 16 = 0 := by simpa using hmod
          simp [SessionEncryption.decrypt, hb, hshort, hmod', hunpad, hdeser]

/-- C4 witness: a one-character token is rejected by the base64 stage and
`decrypt` returns the collapsed failure outcome. -/
theorem decrypt_failure_collapse_witness :
    SessionEncryption.decrypt (fun x => x) deserByte ['A'] = none :=
  (decrypt_failure_collapse (fun x => x) deserByte ['A']).2.1 (by decide)

/-- C5: constructing the codec with a key whose length is not exactly 32
bytes fails with a construction error, and a 32-byte key is stored exactly
as given — never truncated or padded. -/
theorem init_key_length_check (k : List Nat) :
    (k.length ≠ 32 →
      SessionEncryption.init k
        = Except.error "Secret key must be exactly 32 bytes")
    ∧ (k.length = 32 → SessionEncryption.init k = Except.ok k) := by
  constructor
  · intro h
    simp [SessionEncryption.init, h]
  · intro h
    simp [SessionEncryption.init, h]

/-- C5 witness: a 31-byte key is rejected, a 32-byte key is accepted
unchanged. -/
theorem init_key_length_check_witness :
    SessionEncryption.init (List.replicate 31 0)
      = Except.error "Secret key must be exactly 32 bytes"
    ∧ SessionEncryption.init (List.replicate 32 0)
      = Except.ok (List.replicate 32 0) :=
  ⟨(init_key_length_check (List.replicate 31 0)).1 (by decide),
   (init_key_length_check (List.replicate 32 0)).2 (by decide)⟩
